import Mathlib

/-!
Verification of the streaming audio assembly, buffering and crossfade
playback scheduler of the ambient-music app (`src/hooks/useAmbientMusic.ts`).

Modelling conventions:
* Byte buffers (`Uint8Array`) are `List ℕ` (each entry a byte value).
* The accumulation buffer (`audioBufferRef`, a list of chunks) is
  `List (List ℕ)`.
* JavaScript number arithmetic inside the mixer is idealised over `ℚ`;
  `Math.sqrt` (a platform float primitive) is abstracted as a parameter
  `sq : ℚ → ℚ` that every definition and theorem is generic over.
  `Math.round` is `round` (both round half towards positive infinity) and
  the clamp is exact integer arithmetic.
* `DataView.getInt16 / setInt16` raise a `RangeError` when the accessed
  offset is out of range; this is modelled by `Option` (`none` = throw).
* The timed volume-crossfade interval, the WAV container, base64 transport
  and the platform sound objects are external I/O; a queued sound is
  modelled by the PCM payload it was created from plus its metadata.
* All state mutation is serialised on one logical actor (spec §5), so the
  stateful hook functions are modelled as sequential state transformers.
-/

/-- Audio configuration: samples per second (from `config.ts`). -/
def sampleRate : ℕ := 48000

/-- Audio configuration: channel count (from `config.ts`). -/
def channels : ℕ := 2

/-- Audio configuration: bits per sample (from `config.ts`). -/
def bitsPerSample : ℕ := 16

/-- Minimum number of sounds to buffer before starting playback. -/
def MIN_SOUNDS_BEFORE_PLAYBACK : ℕ := 2

/-- Byte threshold at which the chunk buffer cuts a playable unit. -/
def MIN_BYTES_PER_SOUND : ℕ := 768000

/-- PCM crossfade duration in milliseconds. -/
def PCM_CROSSFADE_DURATION_MS : ℕ := 250

/-- `Math.floor(sampleRate * (250 / 1000))` — exact here. -/
def CROSSFADE_SAMPLES : ℕ := sampleRate * PCM_CROSSFADE_DURATION_MS / 1000

/-- Crossfade window size in bytes. -/
def CROSSFADE_BYTES : ℕ := CROSSFADE_SAMPLES * channels * (bitsPerSample / 8)

/-- Volume crossfade duration for overlapping playback (ms). -/
def VOLUME_CROSSFADE_MS : ℕ := 400

/-- Decode two bytes as one little-endian signed 16-bit sample, as
`DataView.getInt16(·, true)` does. -/
def bytesToInt16 (b0 b1 : ℕ) : ℤ :=
  let u : ℕ := b1 % 256 * 256 + b0 % 256
  if u < 32768 then (u : ℤ) else (u : ℤ) - 65536

/-- Encode a signed 16-bit value as two little-endian bytes, as
`DataView.setInt16(·, z, true)` does (the value is reduced mod 2^16). -/
def int16ToBytesLE (z : ℤ) : List ℕ :=
  let u : ℕ := (z % 65536).toNat
  [u % 256, u / 256]

/-- Read the `i`-th little-endian 16-bit sample of a byte buffer. -/
def getInt16LE (bytes : List ℕ) (i : ℕ) : ℤ :=
  bytesToInt16 (bytes.getD (2 * i) 0) (bytes.getD (2 * i + 1) 0)

/-- `Math.max(-32768, Math.min(32767, z))`. -/
def clamp16 (z : ℤ) : ℤ := max (-32768) (min 32767 z)

/-- One iteration of the mixer loop: equal-power blend of the `i`-th
samples of the two buffers, with time parameter `t = i / N`. -/
def mixSample (sq : ℚ → ℚ) (a b : ℤ) (i N : ℕ) : ℤ :=
  clamp16 (round ((a : ℚ) * sq (1 - (i : ℚ) / (N : ℚ)) + (b : ℚ) * sq ((i : ℚ) / (N : ℚ))))

/-- `applyEqualPowerCrossfade` from the hook.  Interprets both buffers as
interleaved 16-bit signed little-endian samples and blends
`min tb.length hb.length` bytes.  When that fade length is odd the JS loop
runs one half-sample too far and `getInt16` / `setInt16` throw a
`RangeError` (modelled as `none`). -/
def applyEqualPowerCrossfade (sq : ℚ → ℚ) (tb hb : List ℕ) : Option (List ℕ) :=
  let fadeLength := min tb.length hb.length
  if fadeLength % 2 = 0 then
    let N := fadeLength / 2
    some (((List.range N).map fun i =>
      int16ToBytesLE (mixSample sq (getInt16LE tb i) (getInt16LE hb i) i N)).flatten)
  else
    none

/-- The pure heart of `processAudioBuffer` (lines 643–681): given the
previous pending tail and the concatenated accumulation buffer, produce
the unit payload (`audioToEncode`) and the new pending tail, or `none`
when the crossfade throws (in which case the catch block swallows the
error without updating the tail or creating a sound). -/
def cutAudio (sq : ℚ → ℚ) (prevTail : Option (List ℕ)) (combined : List ℕ) :
    Option (List ℕ × Option (List ℕ)) :=
  let newTail : Option (List ℕ) :=
    if CROSSFADE_BYTES ≤ combined.length then
      some (combined.drop (combined.length - CROSSFADE_BYTES))
    else prevTail
  let asIs : Option (List ℕ × Option (List ℕ)) :=
    some ((if CROSSFADE_BYTES < combined.length then
             combined.take (combined.length - CROSSFADE_BYTES)
           else combined), newTail)
  match prevTail with
  | some t =>
    if 0 < t.length ∧ CROSSFADE_BYTES ≤ combined.length then
      match applyEqualPowerCrossfade sq t (combined.take CROSSFADE_BYTES) with
      | some crossfaded =>
        some (crossfaded ++
          ((combined.drop CROSSFADE_BYTES).take
            (combined.length - CROSSFADE_BYTES - CROSSFADE_BYTES)), newTail)
      | none => none
    else asIs
  | none => asIs

/-- The `BufferMetrics` record of the hook (`metricsRef`). -/
structure BufferMetrics where
  chunksReceived : ℕ
  bytesReceived : ℕ
  bufferUnderruns : ℕ
  soundsCreated : ℕ
  soundsPlayed : ℕ
  lastChunkTimestamp : ℕ
  isAudioPlaying : Bool
deriving DecidableEq

/-- `initialMetrics` from the hook. -/
def initialMetrics : BufferMetrics :=
  { chunksReceived := 0, bytesReceived := 0, bufferUnderruns := 0,
    soundsCreated := 0, soundsPlayed := 0, lastChunkTimestamp := 0,
    isAudioPlaying := false }

/-- A queued platform sound: the PCM payload it was created from, the
expected duration and the unique sound id (the `{sound, durationMs,
soundId}` entries of `soundQueueRef`). -/
structure SoundItem where
  payload : List ℕ
  durationMs : ℚ
  soundId : ℕ
deriving DecidableEq

/-- `expectedDurationMs` for a payload of the given byte length. -/
def expectedDurationMs (len : ℕ) : ℚ :=
  (len : ℚ) / ((sampleRate : ℚ) * (channels : ℚ) * ((bitsPerSample : ℚ) / 8)) * 1000

/-- The mutable refs of the hook that the scheduler and chunk buffer own. -/
structure MusicRefs where
  audioBuffer : List (List ℕ)
  previousAudioTail : Option (List ℕ)
  soundQueue : List SoundItem
  currentSound : Option SoundItem
  outgoingSound : Option SoundItem
  isPlaying : Bool
  initialPlaybackStarted : Bool
  crossfadeInProgress : Bool
  soundIdCounter : ℕ
  metrics : BufferMetrics
deriving DecidableEq

/-- The ref state set up on mount and restored by `cleanup`. -/
def initialRefs : MusicRefs :=
  { audioBuffer := [], previousAudioTail := none, soundQueue := [],
    currentSound := none, outgoingSound := none, isPlaying := false,
    initialPlaybackStarted := false, crossfadeInProgress := false,
    soundIdCounter := 0, metrics := initialMetrics }

/-- Total bytes currently sitting in the accumulation buffer. -/
def totalBuffered (s : MusicRefs) : ℕ := (s.audioBuffer.map List.length).sum

/-- `playNextInQueue(isOverlap)` (lines 525–609): the synchronous state
effect of advancing the scheduler.  On an empty queue it counts an
underrun only when initial playback has begun and the call is not an
overlap hand-off.  On overlap with a current sound it starts a volume
crossfade (the in-progress flag is raised; the 20 ms gain loop itself is
wall-clock driven and outside this model); otherwise it is a clean
hand-off that unloads the previous current sound. -/
def playNextInQueue (isOverlap : Bool) (s : MusicRefs) : MusicRefs :=
  if s.isPlaying = false then s
  else
    match s.soundQueue with
    | [] =>
      if s.initialPlaybackStarted = true ∧ isOverlap = false then
        { s with metrics := { s.metrics with bufferUnderruns := s.metrics.bufferUnderruns + 1 } }
      else s
    | nextItem :: rest =>
      if isOverlap = true ∧ s.currentSound.isSome then
        { s with soundQueue := rest, outgoingSound := s.currentSound,
                 currentSound := some nextItem, crossfadeInProgress := true,
                 metrics := { s.metrics with soundsPlayed := s.metrics.soundsPlayed + 1 } }
      else
        { s with soundQueue := rest, currentSound := some nextItem,
                 metrics := { s.metrics with soundsPlayed := s.metrics.soundsPlayed + 1 } }

/-- Bookkeeping of `processAudioBuffer` after a successful cut: buffer
spliced empty, pending tail replaced, sound id allocated, metrics bumped
and the new sound pushed onto the queue. -/
def afterCut (s : MusicRefs) (payload : List ℕ) (newTail : Option (List ℕ)) : MusicRefs :=
  { s with audioBuffer := [], previousAudioTail := newTail,
           soundIdCounter := s.soundIdCounter + 1,
           metrics := { s.metrics with soundsCreated := s.metrics.soundsCreated + 1 },
           soundQueue := s.soundQueue ++
             [{ payload := payload, durationMs := expectedDurationMs payload.length,
                soundId := s.soundIdCounter + 1 }] }

/-- Lines 765–788 of the hook: after enqueueing, start playback if nothing
is current — gated on a minimum of `MIN_SOUNDS_BEFORE_PLAYBACK` queued
sounds before the very first start. -/
def maybeStartPlayback (s : MusicRefs) : MusicRefs :=
  if s.currentSound = none ∧ s.isPlaying = true then
    if s.initialPlaybackStarted = false then
      if MIN_SOUNDS_BEFORE_PLAYBACK ≤ s.soundQueue.length then
        playNextInQueue false
          { s with initialPlaybackStarted := true,
                   metrics := { s.metrics with isAudioPlaying := true } }
      else s
    else playNextInQueue false s
  else s

/-- `processAudioBuffer` (lines 612–794): splice the accumulation buffer,
cut one playable unit from the concatenation (WAV wrapping and sound
creation are I/O), and hand it to the scheduler.  A crossfade
`RangeError` is caught leaving only the splice behind.  The
`processingRef` re-entrancy guard is identically false between calls in
the single-actor model and is omitted. -/
def processAudioBuffer (sq : ℚ → ℚ) (s : MusicRefs) : MusicRefs :=
  if s.isPlaying = false ∨ s.audioBuffer = [] then s
  else if totalBuffered s = 0 then { s with audioBuffer := [] }
  else
    match cutAudio sq s.previousAudioTail s.audioBuffer.flatten with
    | none => { s with audioBuffer := [] }
    | some (payload, newTail) => maybeStartPlayback (afterCut s payload newTail)

/-- `handleAudioChunk` (lines 797–836) with an already-decoded chunk: a
zero-length chunk (empty payload or failed base64 decode) is dropped;
otherwise metrics are updated, the chunk is appended, and once the
buffered total reaches `MIN_BYTES_PER_SOUND` a unit is cut. -/
def handleAudioChunk (sq : ℚ → ℚ) (chunk : List ℕ) (now : ℕ) (s : MusicRefs) : MusicRefs :=
  if chunk.length = 0 then s
  else
    let s1 : MusicRefs :=
      { s with audioBuffer := s.audioBuffer ++ [chunk],
               metrics := { s.metrics with
                 chunksReceived := s.metrics.chunksReceived + 1,
                 bytesReceived := s.metrics.bytesReceived + chunk.length,
                 lastChunkTimestamp := now } }
    if MIN_BYTES_PER_SOUND ≤ totalBuffered s1 then processAudioBuffer sq s1 else s1

/-- Ingest a whole sequence of chunks in arrival order. -/
def runChunks (sq : ℚ → ℚ) (cs : List (List ℕ)) (now : ℕ) (s : MusicRefs) : MusicRefs :=
  cs.foldl (fun st c => handleAudioChunk sq c now st) s

/-- Session status of the state machine. -/
inductive MusicStatus where
  | idle
  | connecting
  | playing
  | paused
  | error
deriving DecidableEq

/-- The server-assigned session (prompt set omitted: opaque to the core). -/
structure MusicSession where
  sessionId : String
deriving DecidableEq

/-- The React `MusicState` of the hook. -/
structure MusicState where
  status : MusicStatus
  currentBook : Option String
  session : Option MusicSession
  errorMsg : Option String
deriving DecidableEq

/-- Full hook state: React state, socket presence and the refs. -/
structure HookState where
  state : MusicState
  socketConnected : Bool
  refs : MusicRefs
deriving DecidableEq

/-- Outcome of a remote control call (`fetch` to pause/resume): HTTP
success, HTTP 404 (session unknown), or a thrown network error. -/
inductive RemoteResult where
  | ok
  | notFound
  | netError
deriving DecidableEq

/-- `MusicState` after the full reset performed on session-not-found. -/
def idleState : MusicState :=
  { status := MusicStatus.idle, currentBook := none, session := none, errorMsg := none }

/-- `pause()` (lines 990–1053).  No-op without a session or socket; a 404
runs `cleanup` and resets to idle; a network error is caught before any
state was touched; otherwise playback is frozen in place and the volume
crossfade timer is cancelled. -/
def pause (r : RemoteResult) (h : HookState) : HookState :=
  if h.state.session = none ∨ h.socketConnected = false then h
  else
    match r with
    | RemoteResult.netError => h
    | RemoteResult.notFound =>
      { state := idleState, socketConnected := false, refs := initialRefs }
    | RemoteResult.ok =>
      let pausedRefs : MusicRefs :=
        { h.refs with isPlaying := false, crossfadeInProgress := false,
                      metrics := { h.refs.metrics with isAudioPlaying := false } }
      { h with state := { h.state with status := MusicStatus.paused }, refs := pausedRefs }

/-- `resume()` (lines 1056–1102).  Same guards and 404 handling as
`pause`; on success the current sound is resumed in place, or the
scheduler advances when none exists. -/
def resume (r : RemoteResult) (h : HookState) : HookState :=
  if h.state.session = none ∨ h.socketConnected = false then h
  else
    match r with
    | RemoteResult.netError => h
    | RemoteResult.notFound =>
      { state := idleState, socketConnected := false, refs := initialRefs }
    | RemoteResult.ok =>
      let resumedRefs : MusicRefs :=
        { h.refs with isPlaying := true,
                      metrics := { h.refs.metrics with isAudioPlaying := true } }
      let h1 : HookState :=
        { h with state := { h.state with status := MusicStatus.playing }, refs := resumedRefs }
      match h1.refs.currentSound with
      | some _ => h1
      | none => { h1 with refs := playNextInQueue false h1.refs }

/-- Ref state right after `session_joined` fires (`isPlayingRef := true`). -/
def joinedRefs : MusicRefs := { initialRefs with isPlaying := true }

/-- Well-formed pending tail: absent, or exactly one crossfade window
(spec §3 invariant; established by every save of the tail). -/
def TailWF (t : Option (List ℕ)) : Prop :=
  t = none ∨ ∃ l, t = some l ∧ l.length = CROSSFADE_BYTES

example : CROSSFADE_BYTES = 48000 := by decide
example : applyEqualPowerCrossfade (fun _ => 0) [1] [2, 3] = none := by decide
example : bytesToInt16 255 255 = -1 := by decide
example : int16ToBytesLE (-1) = [255, 255] := by decide

/-- Placeholder square-root function used to instantiate generic
theorems at concrete inputs. -/
def sqZero : ℚ → ℚ := fun _ => 0

/-- Length-level abstraction of one ingest step: the pair tracks
(bytes buffered since the last cut, units cut so far). -/
def ingestStepLen (st : ℕ × ℕ) (c : ℕ) : ℕ × ℕ :=
  if c = 0 then st
  else if MIN_BYTES_PER_SOUND ≤ st.1 + c then (0, st.2 + 1)
  else (st.1 + c, st.2)

/-- Length-level run of a whole chunk sequence from an empty buffer. -/
def runLen (cs : List ℕ) : ℕ × ℕ := cs.foldl ingestStepLen (0, 0)

/-- A reachable-shape state used to instantiate theorems about cuts: the
session is live and one threshold-sized chunk is buffered. -/
def bufferedState : MusicRefs :=
  { joinedRefs with audioBuffer := [List.replicate 768000 (0 : ℕ)] }

/-- A state where initial playback has begun but the engine is paused
(`isPlaying = false`): the original claim predicts an underrun increment
here, the code returns before counting. -/
def stalledState : MusicRefs := { initialRefs with initialPlaybackStarted := true }

/-- A live hook state with a joined session, used to instantiate the
session-layer theorems. -/
def liveHook : HookState :=
  { state := { status := MusicStatus.playing, currentBook := some "book",
               session := some { sessionId := "s1" }, errorMsg := none },
    socketConnected := true, refs := joinedRefs }

/-- A minimal already-played sound used in concrete scheduler states. -/
def idleItem : SoundItem := { payload := [], durationMs := 0, soundId := 1 }

/-- A live hook state with a current sound playing. -/
def currentHook : HookState :=
  { state := { status := MusicStatus.playing, currentBook := none,
               session := some { sessionId := "s2" }, errorMsg := none },
    socketConnected := true,
    refs := { joinedRefs with
                currentSound := some idleItem,
                initialPlaybackStarted := true } }

/-- A live hook state with one queued unit and nothing current (reachable
while buffering before the two-unit gate). -/
def queuedHook : HookState :=
  { state := { status := MusicStatus.playing, currentBook := none,
               session := some { sessionId := "s3" }, errorMsg := none },
    socketConnected := true,
    refs := { joinedRefs with soundQueue := [idleItem] } }

/-- Byte length of the payload a cut returns, when it returns one. -/
def cutPayloadLen (r : Option (List ℕ × Option (List ℕ))) : Option ℕ :=
  Option.map (fun pr => pr.1.length) r

theorem clamp16_lower (z : ℤ) : -32768 ≤ clamp16 z := by
  simp only [clamp16]; omega

theorem clamp16_upper (z : ℤ) : clamp16 z ≤ 32767 := by
  simp only [clamp16]; omega

/-- Writing a 16-bit value in range with `setInt16` and reading it back
with `getInt16` recovers it. -/
theorem bytesToInt16_int16ToBytesLE (z : ℤ) (h1 : -32768 ≤ z) (h2 : z ≤ 32767) :
    bytesToInt16 ((int16ToBytesLE z).getD 0 0) ((int16ToBytesLE z).getD 1 0) = z := by
  simp only [int16ToBytesLE, bytesToInt16, List.getD_cons_zero, List.getD_cons_succ]
  split <;> omega

/-- Indexing a sample in the concatenation of encoded 2-byte blocks picks
out the encoding of the corresponding list element. -/
theorem getInt16LE_flatten_enc (l : List ℤ) (i : ℕ) (hi : i < l.length) :
    getInt16LE ((l.map int16ToBytesLE).flatten) i =
      bytesToInt16 ((int16ToBytesLE (l.getD i 0)).getD 0 0)
        ((int16ToBytesLE (l.getD i 0)).getD 1 0) := by
  induction l generalizing i with
  | nil => simp at hi
  | cons a tl ih =>
    cases i with
    | zero =>
      simp [getInt16LE, int16ToBytesLE]
    | succ j =>
      have hj : j < tl.length := by simpa using hi
      have e1 : 2 * (j + 1) = 2 * j + 1 + 1 := by ring
      have e2 : 2 * (j + 1) + 1 = 2 * j + 1 + 1 + 1 := by ring
      have ha : int16ToBytesLE a =
          [((a % 65536).toNat) % 256, ((a % 65536).toNat) / 256] := rfl
      simp only [getInt16LE, List.map_cons, List.flatten_cons, ha, List.cons_append,
        List.nil_append, e1, e2, List.getD_cons_succ]
      exact ih j hj

/-- The concatenation of 2-byte sample encodings has twice as many bytes
as there are samples. -/
theorem length_flatten_enc (l : List ℤ) :
    ((l.map int16ToBytesLE).flatten).length = 2 * l.length := by
  induction l with
  | nil => simp
  | cons a tl ih =>
    have ha : int16ToBytesLE a =
        [((a % 65536).toNat) % 256, ((a % 65536).toNat) / 256] := rfl
    simp [ha, ih]; ring

/-- Behaviour of the mixer on an even fade length: it returns a buffer of
exactly the fade length whose `i`-th sample is the equal-power blend. -/
theorem applyEqualPowerCrossfade_spec (sq : ℚ → ℚ) (tb hb : List ℕ)
    (h : min tb.length hb.length % 2 = 0) :
    ∃ out, applyEqualPowerCrossfade sq tb hb = some out ∧
      out.length = min tb.length hb.length ∧
      ∀ i, i < min tb.length hb.length / 2 →
        getInt16LE out i =
          mixSample sq (getInt16LE tb i) (getInt16LE hb i) i (min tb.length hb.length / 2) := by
  set N := min tb.length hb.length / 2 with hN
  set g : ℕ → ℤ := fun j => mixSample sq (getInt16LE tb j) (getInt16LE hb j) j N with hg
  have hsome : applyEqualPowerCrossfade sq tb hb =
      some (((List.range N).map fun i => int16ToBytesLE (g i)).flatten) := by
    simp only [applyEqualPowerCrossfade, h, if_pos, hN, hg]
  have hmap : ((List.range N).map fun i => int16ToBytesLE (g i)) =
      ((List.range N).map g).map int16ToBytesLE := by
    rw [List.map_map]; rfl
  refine ⟨_, hsome, ?_, ?_⟩
  · rw [hmap, length_flatten_enc]
    simp only [List.length_map, List.length_range]
    omega
  · intro i hi
    rw [hmap]
    have hlen : i < ((List.range N).map g).length := by
      simpa using hi
    have := getInt16LE_flatten_enc ((List.range N).map g) i hlen
    rw [this]
    have hgd : ((List.range N).map g).getD i 0 = g i := by
      rw [List.getD_eq_getElem?_getD, List.getElem?_map, List.getElem?_range hi]
      rfl
    rw [hgd]
    exact bytesToInt16_int16ToBytesLE _ (clamp16_lower _) (clamp16_upper _)

theorem CROSSFADE_BYTES_eq : CROSSFADE_BYTES = 48000 := by decide

theorem MIN_BYTES_PER_SOUND_eq : MIN_BYTES_PER_SOUND = 768000 := rfl

/-- Full characterisation of a cut on a buffer of at least two crossfade
windows with a well-formed pending tail: the cut succeeds, the new tail is
the unblended final window, the payload is one window shorter than the
input, and the payload is the blended head plus middle (tail present)
or the buffer minus its final window (no tail). -/
theorem cutAudio_spec (sq : ℚ → ℚ) (prevTail : Option (List ℕ)) (combined : List ℕ)
    (hwf : TailWF prevTail) (hlen : 2 * CROSSFADE_BYTES ≤ combined.length) :
    ∃ payload, cutAudio sq prevTail combined =
        some (payload, some (combined.drop (combined.length - CROSSFADE_BYTES))) ∧
      payload.length = combined.length - CROSSFADE_BYTES ∧
      (∀ t, prevTail = some t →
        ∃ blended, applyEqualPowerCrossfade sq t (combined.take CROSSFADE_BYTES) = some blended ∧
          payload = blended ++ (combined.drop CROSSFADE_BYTES).take
            (combined.length - CROSSFADE_BYTES - CROSSFADE_BYTES)) ∧
      (prevTail = none → payload = combined.take (combined.length - CROSSFADE_BYTES)) := by
  have hpos : 0 < CROSSFADE_BYTES := by rw [CROSSFADE_BYTES_eq]; omega
  have hle : CROSSFADE_BYTES ≤ combined.length := by omega
  have hlt : CROSSFADE_BYTES < combined.length := by omega
  rcases hwf with hnone | ⟨l, hsome, hl⟩
  · subst hnone
    refine ⟨combined.take (combined.length - CROSSFADE_BYTES), ?_, ?_, ?_, ?_⟩
    · simp only [cutAudio, hle, hlt, if_true]
    · rw [List.length_take]; omega
    · intro t ht; cases ht
    · intro _; rfl
  · subst hsome
    have hcond : 0 < l.length ∧ CROSSFADE_BYTES ≤ combined.length := ⟨by omega, hle⟩
    have hminlen : min l.length (combined.take CROSSFADE_BYTES).length = CROSSFADE_BYTES := by
      rw [List.length_take]; omega
    have hminev : min l.length (combined.take CROSSFADE_BYTES).length % 2 = 0 := by
      rw [hminlen, CROSSFADE_BYTES_eq]
    obtain ⟨blended, hb, hblen, _⟩ :=
      applyEqualPowerCrossfade_spec sq l (combined.take CROSSFADE_BYTES) hminev
    refine ⟨blended ++ (combined.drop CROSSFADE_BYTES).take
        (combined.length - CROSSFADE_BYTES - CROSSFADE_BYTES), ?_, ?_, ?_, ?_⟩
    · simp only [cutAudio, hcond, hb, hle, and_true, true_and, if_true]
    · rw [List.length_append, hblen, hminlen, List.length_take, List.length_drop]
      omega
    · intro t ht
      cases ht
      exact ⟨blended, hb, rfl⟩
    · intro hn; cases hn

/-- C2: blend length is `min`, each output sample is the clamped rounded
equal-power mix of the input samples at `t = i / N`, and the result is
deterministic in its inputs. -/
theorem blend_contract (sq : ℚ → ℚ) (tb hb : List ℕ)
    (ht : 2 ∣ tb.length) (hh : 2 ∣ hb.length) :
    ∃ out, applyEqualPowerCrossfade sq tb hb = some out ∧
      out.length = min tb.length hb.length ∧
      (∀ i, i < min tb.length hb.length / 2 →
        getInt16LE out i =
          clamp16 (round ((getInt16LE tb i : ℚ) *
              sq (1 - (i : ℚ) / ((min tb.length hb.length / 2 : ℕ) : ℚ)) +
            (getInt16LE hb i : ℚ) *
              sq ((i : ℚ) / ((min tb.length hb.length / 2 : ℕ) : ℚ))))) ∧
      (∀ tb2 hb2, tb2 = tb → hb2 = hb → applyEqualPowerCrossfade sq tb2 hb2 = some out) := by
  have hmin : min tb.length hb.length % 2 = 0 := by omega
  obtain ⟨out, h1, h2, h3⟩ := applyEqualPowerCrossfade_spec sq tb hb hmin
  refine ⟨out, h1, h2, ?_, ?_⟩
  · intro i hi
    rw [h3 i hi]
    rfl
  · intro tb2 hb2 e1 e2
    rw [e1, e2]
    exact h1

/-- Witness for C2 at two concrete even-length buffers. -/
theorem blend_contract_witness :
    (2 ∣ ([0, 0] : List ℕ).length) ∧ (2 ∣ ([1, 2, 3, 4] : List ℕ).length) ∧
    ∃ out, applyEqualPowerCrossfade sqZero [0, 0] [1, 2, 3, 4] = some out ∧
      out.length = min ([0, 0] : List ℕ).length ([1, 2, 3, 4] : List ℕ).length ∧
      (∀ i, i < min ([0, 0] : List ℕ).length ([1, 2, 3, 4] : List ℕ).length / 2 →
        getInt16LE out i =
          clamp16 (round ((getInt16LE [0, 0] i : ℚ) *
              sqZero (1 - (i : ℚ) /
                ((min ([0, 0] : List ℕ).length ([1, 2, 3, 4] : List ℕ).length / 2 : ℕ) : ℚ)) +
            (getInt16LE [1, 2, 3, 4] i : ℚ) *
              sqZero ((i : ℚ) /
                ((min ([0, 0] : List ℕ).length ([1, 2, 3, 4] : List ℕ).length / 2 : ℕ) : ℚ))))) ∧
      (∀ tb2 hb2, tb2 = [0, 0] → hb2 = [1, 2, 3, 4] →
        applyEqualPowerCrossfade sqZero tb2 hb2 = some out) :=
  ⟨by decide, by decide, blend_contract sqZero [0, 0] [1, 2, 3, 4] (by decide) (by decide)⟩

/-- C1: at every cut actually performed by the chunk buffer (the trigger
guarantees at least `MIN_BYTES_PER_SOUND` buffered bytes), the payload is
the blended head plus the middle when a pending tail exists, the buffer
minus its final crossfade window when none does, and the new pending tail
is always the final crossfade window of the unblended buffer. -/
theorem cut_contract (sq : ℚ → ℚ) (prevTail : Option (List ℕ)) (combined : List ℕ)
    (hwf : TailWF prevTail) (hlen : MIN_BYTES_PER_SOUND ≤ combined.length) :
    ∃ payload, cutAudio sq prevTail combined =
        some (payload, some (combined.drop (combined.length - CROSSFADE_BYTES))) ∧
      (∀ t, prevTail = some t →
        ∃ blended, applyEqualPowerCrossfade sq t (combined.take CROSSFADE_BYTES) = some blended ∧
          payload = blended ++ (combined.drop CROSSFADE_BYTES).take
            (combined.length - CROSSFADE_BYTES - CROSSFADE_BYTES)) ∧
      (prevTail = none ∨ combined.length < CROSSFADE_BYTES →
        payload = combined.take (combined.length - CROSSFADE_BYTES)) := by
  have h2 : 2 * CROSSFADE_BYTES ≤ combined.length := by
    rw [CROSSFADE_BYTES_eq]
    rw [MIN_BYTES_PER_SOUND_eq] at hlen
    omega
  obtain ⟨p, hp, _, hsome, hnone⟩ := cutAudio_spec sq prevTail combined hwf h2
  refine ⟨p, hp, hsome, ?_⟩
  intro hcase
  rcases hcase with hn | hshort
  · exact hnone hn
  · exfalso
    omega

/-- Witness for C1: a first cut (no pending tail) on a buffer of exactly
the cut threshold. -/
theorem cut_contract_witness :
    TailWF none ∧ MIN_BYTES_PER_SOUND ≤ (List.replicate 768000 (0 : ℕ)).length ∧
    ∃ payload, cutAudio sqZero none (List.replicate 768000 (0 : ℕ)) =
        some (payload, some ((List.replicate 768000 (0 : ℕ)).drop
          ((List.replicate 768000 (0 : ℕ)).length - CROSSFADE_BYTES))) ∧
      (∀ t, (none : Option (List ℕ)) = some t →
        ∃ blended, applyEqualPowerCrossfade sqZero t
            ((List.replicate 768000 (0 : ℕ)).take CROSSFADE_BYTES) = some blended ∧
          payload = blended ++ ((List.replicate 768000 (0 : ℕ)).drop CROSSFADE_BYTES).take
            ((List.replicate 768000 (0 : ℕ)).length - CROSSFADE_BYTES - CROSSFADE_BYTES)) ∧
      ((none : Option (List ℕ)) = none ∨
          (List.replicate 768000 (0 : ℕ)).length < CROSSFADE_BYTES →
        payload = (List.replicate 768000 (0 : ℕ)).take
          ((List.replicate 768000 (0 : ℕ)).length - CROSSFADE_BYTES)) :=
  ⟨Or.inl rfl, by rw [List.length_replicate]; exact le_of_eq MIN_BYTES_PER_SOUND_eq,
    cut_contract sqZero none (List.replicate 768000 0) (Or.inl rfl)
      (by rw [List.length_replicate]; exact le_of_eq MIN_BYTES_PER_SOUND_eq)⟩


/-- Advancing on an empty queue: the underrun counter is bumped exactly
when playback is live, initial playback has begun and the call is not an
overlap hand-off; no other field changes. -/
theorem playNextInQueue_empty_spec (b : Bool) (s : MusicRefs) (hq : s.soundQueue = []) :
    (playNextInQueue b s).metrics.bufferUnderruns =
      s.metrics.bufferUnderruns +
        (if s.isPlaying = true ∧ s.initialPlaybackStarted = true ∧ b = false then 1 else 0) ∧
    (playNextInQueue b s).soundQueue = s.soundQueue ∧
    (playNextInQueue b s).currentSound = s.currentSound ∧
    (playNextInQueue b s).outgoingSound = s.outgoingSound ∧
    (playNextInQueue b s).metrics.soundsPlayed = s.metrics.soundsPlayed ∧
    (playNextInQueue b s).crossfadeInProgress = s.crossfadeInProgress := by
  cases hP : s.isPlaying <;> cases hI : s.initialPlaybackStarted <;> cases b <;>
    simp [playNextInQueue, hq, hP, hI]

/-- `playNextInQueue` never touches the accumulation buffer, the pending
tail, the created-sounds counter, the playing flag, or the
initial-playback flag. -/
theorem playNextInQueue_preserves (b : Bool) (s : MusicRefs) :
    (playNextInQueue b s).audioBuffer = s.audioBuffer ∧
    (playNextInQueue b s).previousAudioTail = s.previousAudioTail ∧
    (playNextInQueue b s).metrics.soundsCreated = s.metrics.soundsCreated ∧
    (playNextInQueue b s).isPlaying = s.isPlaying ∧
    (playNextInQueue b s).initialPlaybackStarted = s.initialPlaybackStarted := by
  cases hP : s.isPlaying <;> cases hQ : s.soundQueue <;>
    simp [playNextInQueue, hP, hQ] <;> split <;> simp_all

/-- `maybeStartPlayback` never touches the accumulation buffer, the
pending tail, the created-sounds counter, or the playing flag. -/
theorem maybeStartPlayback_preserves (s : MusicRefs) :
    (maybeStartPlayback s).audioBuffer = s.audioBuffer ∧
    (maybeStartPlayback s).previousAudioTail = s.previousAudioTail ∧
    (maybeStartPlayback s).metrics.soundsCreated = s.metrics.soundsCreated ∧
    (maybeStartPlayback s).isPlaying = s.isPlaying := by
  unfold maybeStartPlayback
  split
  · split
    · split
      · obtain ⟨h1, h2, h3, h4, _⟩ := playNextInQueue_preserves false
          { s with initialPlaybackStarted := true,
                   metrics := { s.metrics with isAudioPlaying := true } }
        exact ⟨h1, h2, h3, h4⟩
      · exact ⟨rfl, rfl, rfl, rfl⟩
    · obtain ⟨h1, h2, h3, h4, _⟩ := playNextInQueue_preserves false s
      exact ⟨h1, h2, h3, h4⟩
  · exact ⟨rfl, rfl, rfl, rfl⟩

/-- When the chunk buffer fires with at least the cut threshold buffered
(and a well-formed pending tail), `processAudioBuffer` performs exactly
the cut described by `cutAudio` and then runs the enqueue-and-maybe-play
logic. -/
theorem processAudioBuffer_cut (sq : ℚ → ℚ) (s : MusicRefs)
    (hp : s.isPlaying = true) (hwf : TailWF s.previousAudioTail)
    (hT : MIN_BYTES_PER_SOUND ≤ totalBuffered s) :
    ∃ payload, cutAudio sq s.previousAudioTail s.audioBuffer.flatten =
        some (payload, some (s.audioBuffer.flatten.drop (totalBuffered s - CROSSFADE_BYTES))) ∧
      payload.length = totalBuffered s - CROSSFADE_BYTES ∧
      processAudioBuffer sq s =
        maybeStartPlayback (afterCut s payload
          (some (s.audioBuffer.flatten.drop (totalBuffered s - CROSSFADE_BYTES)))) := by
  have hflatlen : s.audioBuffer.flatten.length = totalBuffered s := by
    rw [List.length_flatten]; rfl
  have h2CB : 2 * CROSSFADE_BYTES ≤ s.audioBuffer.flatten.length := by
    rw [hflatlen, CROSSFADE_BYTES_eq]
    rw [MIN_BYTES_PER_SOUND_eq] at hT
    omega
  obtain ⟨p, hcut, hplen, _, _⟩ :=
    cutAudio_spec sq s.previousAudioTail s.audioBuffer.flatten hwf h2CB
  rw [hflatlen] at hcut hplen
  have hbne : s.audioBuffer ≠ [] := by
    intro he
    rw [MIN_BYTES_PER_SOUND_eq] at hT
    simp [totalBuffered, he] at hT
  have hne : ¬(s.isPlaying = false ∨ s.audioBuffer = []) := by
    rw [hp]
    simp [hbne]
  have htotne : ¬(totalBuffered s = 0) := by
    rw [MIN_BYTES_PER_SOUND_eq] at hT
    omega
  refine ⟨p, hcut, hplen, ?_⟩
  unfold processAudioBuffer
  rw [if_neg hne, if_neg htotne, hcut]

/-- Field-level description of the bookkeeping state after a cut. -/
theorem afterCut_fields (s : MusicRefs) (p : List ℕ) (t : Option (List ℕ)) :
    (afterCut s p t).audioBuffer = [] ∧
    (afterCut s p t).previousAudioTail = t ∧
    (afterCut s p t).metrics.soundsCreated = s.metrics.soundsCreated + 1 ∧
    (afterCut s p t).isPlaying = s.isPlaying ∧
    (afterCut s p t).currentSound = s.currentSound ∧
    (afterCut s p t).initialPlaybackStarted = s.initialPlaybackStarted ∧
    (afterCut s p t).soundQueue = s.soundQueue ++
      [{ payload := p, durationMs := expectedDurationMs p.length,
         soundId := s.soundIdCounter + 1 }] ∧
    (afterCut s p t).metrics.soundsPlayed = s.metrics.soundsPlayed :=
  ⟨rfl, rfl, rfl, rfl, rfl, rfl, rfl, rfl⟩

theorem totalBuffered_eq_zero (s : MusicRefs) (h : s.audioBuffer = []) :
    totalBuffered s = 0 := by
  unfold totalBuffered
  rw [h]
  rfl

theorem flatten_length_totalBuffered (s : MusicRefs) :
    s.audioBuffer.flatten.length = totalBuffered s := by
  rw [List.length_flatten]
  rfl

/-- One `handleAudioChunk` step refines one `ingestStepLen` step on
(buffered bytes, sounds created), and preserves the playing flag and the
pending-tail invariant. -/
theorem handleAudioChunk_sim (sq : ℚ → ℚ) (c : List ℕ) (now : ℕ) (s : MusicRefs)
    (hp : s.isPlaying = true) (hwf : TailWF s.previousAudioTail) :
    (handleAudioChunk sq c now s).isPlaying = true ∧
    TailWF (handleAudioChunk sq c now s).previousAudioTail ∧
    (totalBuffered (handleAudioChunk sq c now s),
      (handleAudioChunk sq c now s).metrics.soundsCreated) =
      ingestStepLen (totalBuffered s, s.metrics.soundsCreated) c.length := by
  by_cases hc : c.length = 0
  · have h0 : handleAudioChunk sq c now s = s := by
      unfold handleAudioChunk
      rw [if_pos hc]
    have h1 : ingestStepLen (totalBuffered s, s.metrics.soundsCreated) c.length =
        (totalBuffered s, s.metrics.soundsCreated) := by
      unfold ingestStepLen
      rw [if_pos hc]
    rw [h0, h1]
    exact ⟨hp, hwf, rfl⟩
  · set s1 : MusicRefs :=
      { s with audioBuffer := s.audioBuffer ++ [c],
               metrics := { s.metrics with
                 chunksReceived := s.metrics.chunksReceived + 1,
                 bytesReceived := s.metrics.bytesReceived + c.length,
                 lastChunkTimestamp := now } } with hs1
    have hstep : handleAudioChunk sq c now s =
        if MIN_BYTES_PER_SOUND ≤ totalBuffered s1 then processAudioBuffer sq s1 else s1 := by
      unfold handleAudioChunk
      rw [if_neg hc]
    have htot1 : totalBuffered s1 = totalBuffered s + c.length := by
      simp [totalBuffered, hs1]
    by_cases hcut : MIN_BYTES_PER_SOUND ≤ totalBuffered s1
    · obtain ⟨p, hcutEq, hplen, hpeq⟩ := processAudioBuffer_cut sq s1 hp hwf hcut
      set t : Option (List ℕ) :=
        some (s1.audioBuffer.flatten.drop (totalBuffered s1 - CROSSFADE_BYTES)) with hts
      obtain ⟨hb1, ht1, hc1, hp1⟩ := maybeStartPlayback_preserves (afterCut s1 p t)
      obtain ⟨ab1, apt1, asc1, api1, _, _, _, _⟩ := afterCut_fields s1 p t
      have hX : handleAudioChunk sq c now s = maybeStartPlayback (afterCut s1 p t) := by
        rw [hstep, if_pos hcut, hpeq]
      have hXbuf : (maybeStartPlayback (afterCut s1 p t)).audioBuffer = [] := by
        rw [hb1, ab1]
      have hXsc : (maybeStartPlayback (afterCut s1 p t)).metrics.soundsCreated =
          s.metrics.soundsCreated + 1 := by
        rw [hc1, asc1]
      have hstepEq : ingestStepLen (totalBuffered s, s.metrics.soundsCreated) c.length =
          (0, s.metrics.soundsCreated + 1) := by
        unfold ingestStepLen
        rw [if_neg hc, if_pos (by rw [htot1] at hcut; simpa using hcut)]
      rw [hX, hstepEq]
      refine ⟨?_, ?_, ?_⟩
      · rw [hp1, api1]
        exact hp
      · rw [ht1, apt1, hts]
        refine Or.inr ⟨_, rfl, ?_⟩
        rw [List.length_drop, flatten_length_totalBuffered, CROSSFADE_BYTES_eq]
        rw [MIN_BYTES_PER_SOUND_eq] at hcut
        omega
      · rw [Prod.mk.injEq]
        exact ⟨totalBuffered_eq_zero _ hXbuf, hXsc⟩
    · rw [hstep, if_neg hcut]
      have hstepEq : ingestStepLen (totalBuffered s, s.metrics.soundsCreated) c.length =
          (totalBuffered s + c.length, s.metrics.soundsCreated) := by
        unfold ingestStepLen
        rw [if_neg hc, if_neg (by rw [htot1] at hcut; simpa using hcut)]
      rw [hstepEq]
      refine ⟨hp, hwf, ?_⟩
      rw [Prod.mk.injEq]
      exact ⟨htot1, rfl⟩

/-- Running a whole chunk sequence refines the length-level automaton. -/
theorem runChunks_sim (sq : ℚ → ℚ) (now : ℕ) (cs : List (List ℕ)) (s : MusicRefs)
    (hp : s.isPlaying = true) (hwf : TailWF s.previousAudioTail) :
    (runChunks sq cs now s).isPlaying = true ∧
    TailWF (runChunks sq cs now s).previousAudioTail ∧
    (totalBuffered (runChunks sq cs now s), (runChunks sq cs now s).metrics.soundsCreated) =
      (cs.map List.length).foldl ingestStepLen
        (totalBuffered s, s.metrics.soundsCreated) := by
  induction cs generalizing s with
  | nil => exact ⟨hp, hwf, rfl⟩
  | cons c cs ih =>
    obtain ⟨h1, h2, h3⟩ := handleAudioChunk_sim sq c now s hp hwf
    obtain ⟨g1, g2, g3⟩ := ih (handleAudioChunk sq c now s) h1 h2
    have hr : runChunks sq (c :: cs) now s = runChunks sq cs now (handleAudioChunk sq c now s) := rfl
    rw [hr]
    refine ⟨g1, g2, ?_⟩
    rw [g3, h3]
    rfl

theorem sum_take_le (cs : List ℕ) (i : ℕ) : (cs.take i).sum ≤ cs.sum := by
  conv_rhs => rw [← List.take_append_drop i cs]
  rw [List.sum_append]
  omega

theorem runLen_append_singleton (cs : List ℕ) (c : ℕ) :
    runLen (cs ++ [c]) = ingestStepLen (runLen cs) c := by
  unfold runLen
  rw [List.foldl_append]
  rfl

/-- When every multiple of the cut threshold below the grand total is hit
exactly at a chunk boundary, the run cuts exactly
`total / MIN_BYTES_PER_SOUND` units and carries `total % MIN_BYTES_PER_SOUND`
bytes. -/
theorem runLen_boundary : ∀ cs : List ℕ,
    (∀ k, 0 < k → k * MIN_BYTES_PER_SOUND ≤ cs.sum →
      ∃ i, (cs.take i).sum = k * MIN_BYTES_PER_SOUND) →
    runLen cs = (cs.sum % MIN_BYTES_PER_SOUND, cs.sum / MIN_BYTES_PER_SOUND) := by
  intro cs
  induction cs using List.reverseRecOn with
  | nil => intro _; rfl
  | append_singleton cs c ih =>
    intro hb
    have hbc : ∀ k, 0 < k → k * MIN_BYTES_PER_SOUND ≤ cs.sum →
        ∃ i, (cs.take i).sum = k * MIN_BYTES_PER_SOUND := by
      intro k hk hle
      have hle2 : k * MIN_BYTES_PER_SOUND ≤ (cs ++ [c]).sum := by
        rw [List.sum_append, List.sum_singleton]
        omega
      obtain ⟨i, hi⟩ := hb k hk hle2
      by_cases hil : i ≤ cs.length
      · refine ⟨i, ?_⟩
        rwa [List.take_append_of_le_length hil] at hi
      · have hlen : (cs ++ [c]).length ≤ i := by
          rw [List.length_append]
          simp only [List.length_singleton]
          omega
        rw [List.take_of_length_le hlen, List.sum_append, List.sum_singleton] at hi
        refine ⟨cs.length, ?_⟩
        rw [List.take_length]
        omega
    have IH := ih hbc
    rw [runLen_append_singleton, IH, List.sum_append, List.sum_singleton]
    by_cases hc0 : c = 0
    · subst hc0
      unfold ingestStepLen
      rw [if_pos rfl]
      norm_num
    · unfold ingestStepLen
      rw [if_neg hc0]
      by_cases hcut : MIN_BYTES_PER_SOUND ≤
          (cs.sum % MIN_BYTES_PER_SOUND, cs.sum / MIN_BYTES_PER_SOUND).1 + c
      · rw [if_pos hcut]
        simp only at hcut
        have hex : cs.sum + c = (cs.sum / MIN_BYTES_PER_SOUND + 1) * MIN_BYTES_PER_SOUND := by
          have hkT : (cs.sum / MIN_BYTES_PER_SOUND + 1) * MIN_BYTES_PER_SOUND ≤ cs.sum + c := by
            simp only [MIN_BYTES_PER_SOUND_eq] at hcut ⊢
            omega
          obtain ⟨i, hi⟩ := hb (cs.sum / MIN_BYTES_PER_SOUND + 1) (Nat.succ_pos _)
            (by rw [List.sum_append, List.sum_singleton]; exact hkT)
          by_cases hil : i ≤ cs.length
          · exfalso
            rw [List.take_append_of_le_length hil] at hi
            have hle := sum_take_le cs i
            rw [hi] at hle
            simp only [MIN_BYTES_PER_SOUND_eq] at hle
            omega
          · have hlen : (cs ++ [c]).length ≤ i := by
              rw [List.length_append]
              simp only [List.length_singleton]
              omega
            rw [List.take_of_length_le hlen, List.sum_append, List.sum_singleton] at hi
            exact hi
        rw [Prod.mk.injEq]
        constructor
        · rw [hex]
          simp only [MIN_BYTES_PER_SOUND_eq]
          omega
        · rw [hex]
          simp only [MIN_BYTES_PER_SOUND_eq]
          omega
      · rw [if_neg hcut]
        simp only at hcut
        rw [Prod.mk.injEq]
        constructor <;> (simp only [MIN_BYTES_PER_SOUND_eq] at hcut ⊢; omega)

/-- C3: for every chunk sequence whose cumulative byte length hits every
multiple of the cut threshold exactly at a chunk boundary, the number of
units cut equals `floor(totalBytes / threshold)` (leftover bytes below
the next multiple stay buffered for the next window). -/
theorem unit_count_at_boundary (sq : ℚ → ℚ) (now : ℕ) (cs : List (List ℕ))
    (hb : ∀ k, 0 < k → k * MIN_BYTES_PER_SOUND ≤ (cs.map List.length).sum →
      ∃ i, ((cs.map List.length).take i).sum = k * MIN_BYTES_PER_SOUND) :
    (runChunks sq cs now joinedRefs).metrics.soundsCreated =
      (cs.map List.length).sum / MIN_BYTES_PER_SOUND := by
  obtain ⟨_, _, h3⟩ := runChunks_sim sq now cs joinedRefs rfl (Or.inl rfl)
  have h0 : (totalBuffered joinedRefs, joinedRefs.metrics.soundsCreated) = ((0 : ℕ), (0 : ℕ)) := rfl
  rw [h0] at h3
  have hr : (cs.map List.length).foldl ingestStepLen ((0 : ℕ), (0 : ℕ)) =
      runLen (cs.map List.length) := rfl
  rw [hr, runLen_boundary _ hb] at h3
  exact congrArg Prod.snd h3

/-- Witness for C3: a single chunk of exactly the threshold size cuts
exactly one unit. -/
theorem unit_count_at_boundary_witness :
    (∀ k, 0 < k →
      k * MIN_BYTES_PER_SOUND ≤ (([List.replicate 768000 (0 : ℕ)]).map List.length).sum →
      ∃ i, ((([List.replicate 768000 (0 : ℕ)]).map List.length).take i).sum =
        k * MIN_BYTES_PER_SOUND) ∧
    (runChunks sqZero [List.replicate 768000 (0 : ℕ)] 0 joinedRefs).metrics.soundsCreated =
      (([List.replicate 768000 (0 : ℕ)]).map List.length).sum / MIN_BYTES_PER_SOUND := by
  have hb : ∀ k, 0 < k →
      k * MIN_BYTES_PER_SOUND ≤ (([List.replicate 768000 (0 : ℕ)]).map List.length).sum →
      ∃ i, ((([List.replicate 768000 (0 : ℕ)]).map List.length).take i).sum =
        k * MIN_BYTES_PER_SOUND := by
    intro k hk hle
    simp only [List.map_cons, List.map_nil, List.length_replicate, List.sum_cons,
      List.sum_nil, MIN_BYTES_PER_SOUND_eq] at hle
    have hk1 : k = 1 := by omega
    subst hk1
    refine ⟨1, ?_⟩
    simp only [List.map_cons, List.map_nil, List.length_replicate, MIN_BYTES_PER_SOUND_eq]
    rfl
  exact ⟨hb, unit_count_at_boundary sqZero 0 _ hb⟩

set_option maxRecDepth 8000 in
/-- C5: ten chunks of 100,000 bytes produce exactly one cut unit,
triggered at the eighth chunk, with 200,000 bytes left buffered. -/
theorem scenario_ten_chunks :
    (runChunks sqZero (List.replicate 10 (List.replicate 100000 (0 : ℕ))) 0
      joinedRefs).metrics.soundsCreated = 1 ∧
    totalBuffered (runChunks sqZero (List.replicate 10 (List.replicate 100000 (0 : ℕ))) 0
      joinedRefs) = 200000 ∧
    (runChunks sqZero (List.replicate 8 (List.replicate 100000 (0 : ℕ))) 0
      joinedRefs).metrics.soundsCreated = 1 ∧
    (runChunks sqZero (List.replicate 7 (List.replicate 100000 (0 : ℕ))) 0
      joinedRefs).metrics.soundsCreated = 0 := by
  have h10 := (runChunks_sim sqZero 0 (List.replicate 10 (List.replicate 100000 0))
    joinedRefs rfl (Or.inl rfl)).2.2
  have h8 := (runChunks_sim sqZero 0 (List.replicate 8 (List.replicate 100000 0))
    joinedRefs rfl (Or.inl rfl)).2.2
  have h7 := (runChunks_sim sqZero 0 (List.replicate 7 (List.replicate 100000 0))
    joinedRefs rfl (Or.inl rfl)).2.2
  rw [List.map_replicate, List.length_replicate] at h10 h8 h7
  have e10 : (List.replicate 10 (100000 : ℕ)).foldl ingestStepLen
      (totalBuffered joinedRefs, joinedRefs.metrics.soundsCreated) = ((200000 : ℕ), (1 : ℕ)) := by
    decide
  have e8 : (List.replicate 8 (100000 : ℕ)).foldl ingestStepLen
      (totalBuffered joinedRefs, joinedRefs.metrics.soundsCreated) = ((0 : ℕ), (1 : ℕ)) := by
    decide
  have e7 : (List.replicate 7 (100000 : ℕ)).foldl ingestStepLen
      (totalBuffered joinedRefs, joinedRefs.metrics.soundsCreated) = ((700000 : ℕ), (0 : ℕ)) := by
    decide
  rw [e10, Prod.mk.injEq] at h10
  rw [e8, Prod.mk.injEq] at h8
  rw [e7, Prod.mk.injEq] at h7
  exact ⟨h10.2, h10.1, h8.2, h7.2⟩

theorem bufferedState_total : totalBuffered bufferedState = 768000 := by
  unfold totalBuffered
  have hb : bufferedState.audioBuffer = [List.replicate 768000 (0 : ℕ)] := rfl
  rw [hb]
  simp only [List.map_cons, List.map_nil, List.length_replicate, List.sum_cons, List.sum_nil]
  omega

/-- C10: `processAudioBuffer` consumes the whole accumulation buffer in
one cut — afterwards the buffer is empty, exactly one new unit was
created, and that unit's payload covers everything buffered except the
reserved crossfade tail, however far past the threshold the total ran. -/
theorem cut_consumes_entire_buffer (sq : ℚ → ℚ) (s : MusicRefs)
    (hp : s.isPlaying = true) (hwf : TailWF s.previousAudioTail)
    (hT : MIN_BYTES_PER_SOUND ≤ totalBuffered s) :
    (processAudioBuffer sq s).audioBuffer = [] ∧
    (processAudioBuffer sq s).metrics.soundsCreated = s.metrics.soundsCreated + 1 ∧
    ∃ payload newTail,
      cutAudio sq s.previousAudioTail s.audioBuffer.flatten = some (payload, newTail) ∧
      payload.length = totalBuffered s - CROSSFADE_BYTES := by
  obtain ⟨p, hcut, hplen, heq⟩ := processAudioBuffer_cut sq s hp hwf hT
  obtain ⟨hb1, _, hc1, _⟩ := maybeStartPlayback_preserves (afterCut s p
    (some (s.audioBuffer.flatten.drop (totalBuffered s - CROSSFADE_BYTES))))
  obtain ⟨ab1, _, asc1, _, _, _, _, _⟩ := afterCut_fields s p
    (some (s.audioBuffer.flatten.drop (totalBuffered s - CROSSFADE_BYTES)))
  rw [heq]
  exact ⟨by rw [hb1, ab1], by rw [hc1, asc1], p, _, hcut, hplen⟩

/-- Witness for C10 on the concrete one-chunk threshold state. -/
theorem cut_consumes_entire_buffer_witness :
    bufferedState.isPlaying = true ∧ TailWF bufferedState.previousAudioTail ∧
    MIN_BYTES_PER_SOUND ≤ totalBuffered bufferedState ∧
    ((processAudioBuffer sqZero bufferedState).audioBuffer = [] ∧
    (processAudioBuffer sqZero bufferedState).metrics.soundsCreated =
      bufferedState.metrics.soundsCreated + 1 ∧
    ∃ payload newTail,
      cutAudio sqZero bufferedState.previousAudioTail bufferedState.audioBuffer.flatten =
        some (payload, newTail) ∧
      payload.length = totalBuffered bufferedState - CROSSFADE_BYTES) :=
  ⟨rfl, Or.inl rfl, by rw [bufferedState_total]; exact le_of_eq MIN_BYTES_PER_SOUND_eq,
    cut_consumes_entire_buffer sqZero bufferedState rfl (Or.inl rfl)
      (by rw [bufferedState_total]; exact le_of_eq MIN_BYTES_PER_SOUND_eq)⟩

/-- A clean (non-overlap) advance on a live scheduler with a non-empty
queue pops the head, makes it current and counts it played. -/
theorem playNextInQueue_clean (s : MusicRefs) (x : SoundItem) (xs : List SoundItem)
    (hp : s.isPlaying = true) (hq : s.soundQueue = x :: xs) :
    playNextInQueue false s =
      { s with soundQueue := xs, currentSound := some x,
               metrics := { s.metrics with soundsPlayed := s.metrics.soundsPlayed + 1 } } := by
  unfold playNextInQueue
  rw [hp, hq]
  simp

/-- C6: when a unit is enqueued by a cut while nothing is current, the
scheduler starts playing the queue head iff at least
`MIN_SOUNDS_BEFORE_PLAYBACK` units are queued (before initial playback),
and advances immediately once initial playback has begun. -/
theorem enqueue_start_gate (sq : ℚ → ℚ) (s : MusicRefs)
    (hp : s.isPlaying = true) (hcur : s.currentSound = none)
    (hwf : TailWF s.previousAudioTail) (hT : MIN_BYTES_PER_SOUND ≤ totalBuffered s) :
    ∃ item : SoundItem,
      (s.initialPlaybackStarted = false →
        (MIN_SOUNDS_BEFORE_PLAYBACK ≤ (s.soundQueue ++ [item]).length →
          (processAudioBuffer sq s).initialPlaybackStarted = true ∧
          (processAudioBuffer sq s).currentSound = (s.soundQueue ++ [item]).head? ∧
          (processAudioBuffer sq s).soundQueue = (s.soundQueue ++ [item]).tail ∧
          (processAudioBuffer sq s).metrics.soundsPlayed = s.metrics.soundsPlayed + 1) ∧
        ((s.soundQueue ++ [item]).length < MIN_SOUNDS_BEFORE_PLAYBACK →
          (processAudioBuffer sq s).initialPlaybackStarted = false ∧
          (processAudioBuffer sq s).currentSound = none ∧
          (processAudioBuffer sq s).soundQueue = s.soundQueue ++ [item] ∧
          (processAudioBuffer sq s).metrics.soundsPlayed = s.metrics.soundsPlayed)) ∧
      (s.initialPlaybackStarted = true →
        (processAudioBuffer sq s).currentSound = (s.soundQueue ++ [item]).head? ∧
        (processAudioBuffer sq s).soundQueue = (s.soundQueue ++ [item]).tail ∧
        (processAudioBuffer sq s).metrics.soundsPlayed = s.metrics.soundsPlayed + 1) := by
  obtain ⟨p, hcut, hplen, heq⟩ := processAudioBuffer_cut sq s hp hwf hT
  set t : Option (List ℕ) :=
    some (s.audioBuffer.flatten.drop (totalBuffered s - CROSSFADE_BYTES)) with hts
  set item : SoundItem :=
    { payload := p, durationMs := expectedDurationMs p.length,
      soundId := s.soundIdCounter + 1 } with hitem
  obtain ⟨ab1, apt1, asc1, api1, acur1, ast1, aq1, asp1⟩ := afterCut_fields s p t
  rw [← hitem] at aq1
  have hcond : (afterCut s p t).currentSound = none ∧ (afterCut s p t).isPlaying = true := by
    rw [acur1, api1]
    exact ⟨hcur, hp⟩
  obtain ⟨x, xs, hxq⟩ : ∃ x xs, s.soundQueue ++ [item] = x :: xs := by
    cases hsq : s.soundQueue with
    | nil => exact ⟨item, [], by simp [hsq]⟩
    | cons a as => exact ⟨a, as ++ [item], by simp [hsq]⟩
  refine ⟨item, ?_, ?_⟩
  · intro hstart
    have hA0 : (afterCut s p t).initialPlaybackStarted = false := by rw [ast1]; exact hstart
    constructor
    · intro hge
      have hge' : MIN_SOUNDS_BEFORE_PLAYBACK ≤ (afterCut s p t).soundQueue.length := by
        rw [aq1]
        exact hge
      set A2 : MusicRefs :=
        { afterCut s p t with
            initialPlaybackStarted := true,
            metrics := { (afterCut s p t).metrics with isAudioPlaying := true } } with hA2
      have hstep : processAudioBuffer sq s = playNextInQueue false A2 := by
        rw [heq]
        unfold maybeStartPlayback
        rw [if_pos hcond, if_pos hA0, if_pos hge']
      have hA2p : A2.isPlaying = true := by
        rw [hA2]
        exact api1.trans hp
      have hA2q : A2.soundQueue = x :: xs := by
        rw [hA2]
        exact aq1.trans hxq
      have hfin := playNextInQueue_clean A2 x xs hA2p hA2q
      rw [hstep, hfin, hxq]
      refine ⟨rfl, rfl, rfl, ?_⟩
      have : A2.metrics.soundsPlayed = s.metrics.soundsPlayed := asp1
      rw [this]
    · intro hlt
      have hge' : ¬ MIN_SOUNDS_BEFORE_PLAYBACK ≤ (afterCut s p t).soundQueue.length := by
        rw [aq1]
        omega
      have hstep : processAudioBuffer sq s = afterCut s p t := by
        rw [heq]
        unfold maybeStartPlayback
        rw [if_pos hcond, if_pos hA0, if_neg hge']
      rw [hstep]
      exact ⟨hA0, acur1.trans hcur, aq1, asp1⟩
  · intro hstart
    have hA0 : ¬ (afterCut s p t).initialPlaybackStarted = false := by
      rw [ast1, hstart]
      simp
    have hstep : processAudioBuffer sq s = playNextInQueue false (afterCut s p t) := by
      rw [heq]
      unfold maybeStartPlayback
      rw [if_pos hcond, if_neg hA0]
    have hAp : (afterCut s p t).isPlaying = true := api1.trans hp
    have hAq : (afterCut s p t).soundQueue = x :: xs := aq1.trans hxq
    have hfin := playNextInQueue_clean (afterCut s p t) x xs hAp hAq
    rw [hstep, hfin, hxq]
    exact ⟨rfl, rfl, by rw [show (afterCut s p t).metrics.soundsPlayed =
      s.metrics.soundsPlayed from asp1]⟩

/-- Witness for C6 on the concrete one-chunk threshold state (first cut,
queue previously empty, initial playback not yet started). -/
theorem enqueue_start_gate_witness :
    bufferedState.isPlaying = true ∧ bufferedState.currentSound = none ∧
    TailWF bufferedState.previousAudioTail ∧
    MIN_BYTES_PER_SOUND ≤ totalBuffered bufferedState ∧
    (∃ item : SoundItem,
      (bufferedState.initialPlaybackStarted = false →
        (MIN_SOUNDS_BEFORE_PLAYBACK ≤ (bufferedState.soundQueue ++ [item]).length →
          (processAudioBuffer sqZero bufferedState).initialPlaybackStarted = true ∧
          (processAudioBuffer sqZero bufferedState).currentSound =
            (bufferedState.soundQueue ++ [item]).head? ∧
          (processAudioBuffer sqZero bufferedState).soundQueue =
            (bufferedState.soundQueue ++ [item]).tail ∧
          (processAudioBuffer sqZero bufferedState).metrics.soundsPlayed =
            bufferedState.metrics.soundsPlayed + 1) ∧
        ((bufferedState.soundQueue ++ [item]).length < MIN_SOUNDS_BEFORE_PLAYBACK →
          (processAudioBuffer sqZero bufferedState).initialPlaybackStarted = false ∧
          (processAudioBuffer sqZero bufferedState).currentSound = none ∧
          (processAudioBuffer sqZero bufferedState).soundQueue =
            bufferedState.soundQueue ++ [item] ∧
          (processAudioBuffer sqZero bufferedState).metrics.soundsPlayed =
            bufferedState.metrics.soundsPlayed)) ∧
      (bufferedState.initialPlaybackStarted = true →
        (processAudioBuffer sqZero bufferedState).currentSound =
          (bufferedState.soundQueue ++ [item]).head? ∧
        (processAudioBuffer sqZero bufferedState).soundQueue =
          (bufferedState.soundQueue ++ [item]).tail ∧
        (processAudioBuffer sqZero bufferedState).metrics.soundsPlayed =
          bufferedState.metrics.soundsPlayed + 1)) :=
  ⟨rfl, rfl, Or.inl rfl,
    by rw [bufferedState_total]; exact le_of_eq MIN_BYTES_PER_SOUND_eq,
    enqueue_start_gate sqZero bufferedState rfl rfl (Or.inl rfl)
      (by rw [bufferedState_total]; exact le_of_eq MIN_BYTES_PER_SOUND_eq)⟩

/-- C4 (amended): with the queue empty, `advance(isOverlap)` bumps the
underrun counter by exactly one when the scheduler is live (`isPlaying`),
initial playback has begun and the call is not overlap-triggered, and by
zero otherwise; in all empty-queue cases no audible action is taken
(queue, current and outgoing sounds, played counter and crossfade flag
are untouched). -/
theorem underrun_exact (b : Bool) (s : MusicRefs) (hq : s.soundQueue = []) :
    (playNextInQueue b s).metrics.bufferUnderruns =
      s.metrics.bufferUnderruns +
        (if s.isPlaying = true ∧ s.initialPlaybackStarted = true ∧ b = false then 1 else 0) ∧
    (playNextInQueue b s).soundQueue = s.soundQueue ∧
    (playNextInQueue b s).currentSound = s.currentSound ∧
    (playNextInQueue b s).outgoingSound = s.outgoingSound ∧
    (playNextInQueue b s).metrics.soundsPlayed = s.metrics.soundsPlayed ∧
    (playNextInQueue b s).crossfadeInProgress = s.crossfadeInProgress :=
  playNextInQueue_empty_spec b s hq

/-- Witness for C4 at the initial (empty-queue) state. -/
theorem underrun_exact_witness :
    initialRefs.soundQueue = [] ∧
    ((playNextInQueue false initialRefs).metrics.bufferUnderruns =
      initialRefs.metrics.bufferUnderruns +
        (if initialRefs.isPlaying = true ∧ initialRefs.initialPlaybackStarted = true ∧
            false = false then 1 else 0) ∧
    (playNextInQueue false initialRefs).soundQueue = initialRefs.soundQueue ∧
    (playNextInQueue false initialRefs).currentSound = initialRefs.currentSound ∧
    (playNextInQueue false initialRefs).outgoingSound = initialRefs.outgoingSound ∧
    (playNextInQueue false initialRefs).metrics.soundsPlayed =
      initialRefs.metrics.soundsPlayed ∧
    (playNextInQueue false initialRefs).crossfadeInProgress =
      initialRefs.crossfadeInProgress) :=
  ⟨rfl, underrun_exact false initialRefs rfl⟩

/-- Counterexample to C4 as stated: `advance(false)` on an empty queue
after initial playback has started does not increment the underrun
counter when `isPlaying` is false. -/
theorem underrun_exact_cex :
    stalledState.soundQueue = [] ∧ stalledState.initialPlaybackStarted = true ∧
    ¬((playNextInQueue false stalledState).metrics.bufferUnderruns =
        stalledState.metrics.bufferUnderruns + 1) := by decide

/-- C7: `pause()` answered with HTTP 404 performs the full reset: status
becomes idle, session and book are cleared, all owned sounds (queued,
current, outgoing) are released, the accumulation buffer and pending tail
are cleared and the metrics are zeroed. -/
theorem pause_notfound_resets (h : HookState) (sess : MusicSession)
    (hs : h.state.session = some sess) (hsock : h.socketConnected = true) :
    pause RemoteResult.notFound h =
      { state := idleState, socketConnected := false, refs := initialRefs } ∧
    (pause RemoteResult.notFound h).refs.soundQueue = [] ∧
    (pause RemoteResult.notFound h).refs.currentSound = none ∧
    (pause RemoteResult.notFound h).refs.outgoingSound = none ∧
    (pause RemoteResult.notFound h).refs.audioBuffer = [] ∧
    (pause RemoteResult.notFound h).refs.previousAudioTail = none ∧
    (pause RemoteResult.notFound h).refs.metrics = initialMetrics ∧
    (pause RemoteResult.notFound h).state.status = MusicStatus.idle ∧
    (pause RemoteResult.notFound h).state.session = none ∧
    (pause RemoteResult.notFound h).state.currentBook = none := by
  have hng : ¬(h.state.session = none ∨ h.socketConnected = false) := by
    rw [hs, hsock]
    simp
  have hpe : pause RemoteResult.notFound h =
      { state := idleState, socketConnected := false, refs := initialRefs } := by
    unfold pause
    rw [if_neg hng]
  rw [hpe]
  exact ⟨rfl, rfl, rfl, rfl, rfl, rfl, rfl, rfl, rfl, rfl⟩

/-- Witness for C7 on a concrete live session. -/
theorem pause_notfound_resets_witness :
    liveHook.state.session = some { sessionId := "s1" } ∧
    liveHook.socketConnected = true ∧
    (pause RemoteResult.notFound liveHook =
      { state := idleState, socketConnected := false, refs := initialRefs } ∧
    (pause RemoteResult.notFound liveHook).refs.soundQueue = [] ∧
    (pause RemoteResult.notFound liveHook).refs.currentSound = none ∧
    (pause RemoteResult.notFound liveHook).refs.outgoingSound = none ∧
    (pause RemoteResult.notFound liveHook).refs.audioBuffer = [] ∧
    (pause RemoteResult.notFound liveHook).refs.previousAudioTail = none ∧
    (pause RemoteResult.notFound liveHook).refs.metrics = initialMetrics ∧
    (pause RemoteResult.notFound liveHook).state.status = MusicStatus.idle ∧
    (pause RemoteResult.notFound liveHook).state.session = none ∧
    (pause RemoteResult.notFound liveHook).state.currentBook = none) :=
  ⟨rfl, rfl, pause_notfound_resets liveHook { sessionId := "s1" } rfl rfl⟩

/-- C8 (amended): `pause()` immediately followed by `resume()` (both
acknowledged by the remote, no chunk in between) leaves the queue and the
current unit unchanged, provided a current unit exists or the queue is
empty.  (When nothing is current but units are queued, `resume()`
advances the scheduler and pops the head — see the counterexample.) -/
theorem pause_resume_roundtrip (h : HookState)
    (hc : h.refs.currentSound.isSome = true ∨ h.refs.soundQueue = []) :
    (resume RemoteResult.ok (pause RemoteResult.ok h)).refs.soundQueue =
      h.refs.soundQueue ∧
    (resume RemoteResult.ok (pause RemoteResult.ok h)).refs.currentSound =
      h.refs.currentSound := by
  by_cases hg : h.state.session = none ∨ h.socketConnected = false
  · have hp1 : pause RemoteResult.ok h = h := by
      unfold pause
      rw [if_pos hg]
    have hr1 : resume RemoteResult.ok h = h := by
      unfold resume
      rw [if_pos hg]
    rw [hp1, hr1]
    exact ⟨rfl, rfl⟩
  · obtain ⟨⟨st, bk, se, er⟩, sock, refs⟩ := h
    push_neg at hg
    obtain ⟨hse, hsock⟩ := hg
    simp only at hse hsock hc ⊢
    obtain ⟨sess, hsess⟩ := Option.ne_none_iff_exists'.mp hse
    have hsock' : sock = true := by
      revert hsock
      cases sock <;> simp
    subst hsess
    subst hsock'
    cases hcur : refs.currentSound with
    | some c =>
      simp [pause, resume, hcur]
    | none =>
      rcases hc with hsome | hqnil
      · rw [hcur] at hsome
        simp at hsome
      · simp [pause, resume, hcur]
        constructor
        · exact (playNextInQueue_empty_spec false
            { refs with currentSound := none, isPlaying := true, crossfadeInProgress := false,
                        metrics := { refs.metrics with isAudioPlaying := true } } hqnil).2.1
        · exact (playNextInQueue_empty_spec false
            { refs with currentSound := none, isPlaying := true, crossfadeInProgress := false,
                        metrics := { refs.metrics with isAudioPlaying := true } } hqnil).2.2.1

/-- Witness for C8 on a concrete state with a current unit. -/
theorem pause_resume_roundtrip_witness :
    (currentHook.refs.currentSound.isSome = true ∨ currentHook.refs.soundQueue = []) ∧
    ((resume RemoteResult.ok (pause RemoteResult.ok currentHook)).refs.soundQueue =
      currentHook.refs.soundQueue ∧
    (resume RemoteResult.ok (pause RemoteResult.ok currentHook)).refs.currentSound =
      currentHook.refs.currentSound) :=
  ⟨Or.inl rfl, pause_resume_roundtrip currentHook (Or.inl rfl)⟩

/-- Counterexample to C8 as stated: with one unit queued and nothing
current, the pause–resume round trip pops the queue head into the current
slot, so neither the queue nor the current unit is unchanged. -/
theorem pause_resume_roundtrip_cex :
    ¬((resume RemoteResult.ok (pause RemoteResult.ok queuedHook)).refs.soundQueue =
        queuedHook.refs.soundQueue ∧
      (resume RemoteResult.ok (pause RemoteResult.ok queuedHook)).refs.currentSound =
        queuedHook.refs.currentSound) := by decide

/-- C9 (amended): provided the accumulated bytes at a cut are a whole
number of frames (channel count × bytes-per-sample = 4 bytes), every
unit payload the chunk buffer cuts is frame-aligned. -/
theorem payload_frame_multiple (sq : ℚ → ℚ) (prevTail : Option (List ℕ))
    (combined : List ℕ) (hwf : TailWF prevTail)
    (hT : MIN_BYTES_PER_SOUND ≤ combined.length)
    (h4 : channels * (bitsPerSample / 8) ∣ combined.length) :
    ∃ payload newTail, cutAudio sq prevTail combined = some (payload, newTail) ∧
      channels * (bitsPerSample / 8) ∣ payload.length := by
  have h2CB : 2 * CROSSFADE_BYTES ≤ combined.length := by
    rw [CROSSFADE_BYTES_eq]
    rw [MIN_BYTES_PER_SOUND_eq] at hT
    omega
  obtain ⟨p, hp, hplen, _, _⟩ := cutAudio_spec sq prevTail combined hwf h2CB
  refine ⟨p, _, hp, ?_⟩
  rw [hplen]
  have hch : channels * (bitsPerSample / 8) = 4 := rfl
  rw [hch] at h4 ⊢
  rw [CROSSFADE_BYTES_eq]
  rw [MIN_BYTES_PER_SOUND_eq] at hT
  omega

/-- Witness for C9 on a frame-aligned threshold-sized buffer. -/
theorem payload_frame_multiple_witness :
    TailWF none ∧
    MIN_BYTES_PER_SOUND ≤ (List.replicate 768000 (0 : ℕ)).length ∧
    channels * (bitsPerSample / 8) ∣ (List.replicate 768000 (0 : ℕ)).length ∧
    (∃ payload newTail,
      cutAudio sqZero none (List.replicate 768000 (0 : ℕ)) = some (payload, newTail) ∧
      channels * (bitsPerSample / 8) ∣ payload.length) :=
  ⟨Or.inl rfl,
    by rw [List.length_replicate]; exact le_of_eq MIN_BYTES_PER_SOUND_eq,
    by rw [List.length_replicate]; decide,
    payload_frame_multiple sqZero none (List.replicate 768000 0) (Or.inl rfl)
      (by rw [List.length_replicate]; exact le_of_eq MIN_BYTES_PER_SOUND_eq)
      (by rw [List.length_replicate]; decide)⟩

/-- Counterexample to C9 as stated: a cut of 768,001 accumulated bytes
(arbitrary chunk lengths are allowed by the transport) yields a
720,001-byte payload, which is not a multiple of the 4-byte frame. -/
theorem payload_frame_multiple_cex :
    cutPayloadLen (cutAudio sqZero none (List.replicate 768001 (0 : ℕ))) = some 720001 ∧
    ¬(channels * (bitsPerSample / 8) ∣ (720001 : ℕ)) := by
  constructor
  · have h2CB : 2 * CROSSFADE_BYTES ≤ (List.replicate 768001 (0 : ℕ)).length := by
      rw [List.length_replicate, CROSSFADE_BYTES_eq]
      omega
    obtain ⟨p, hp, hplen, _, _⟩ :=
      cutAudio_spec sqZero none (List.replicate 768001 0) (Or.inl rfl) h2CB
    rw [List.length_replicate, CROSSFADE_BYTES_eq] at hplen
    have hplen2 : p.length = 720001 := by rw [hplen]
    unfold cutPayloadLen
    rw [hp]
    exact congrArg some hplen2
  · decide
